import Mathlib

/-!
Verification of the geometric resampling core of an omnidirectional-image
dataset converter (`dataset.py`).

The core consists of:
* `genuv h w` — the spherical grid generator: `u, v = np.meshgrid(np.arange(w),
  np.arange(h))`, then `u = (u + 0.5) * 2π/w - π`, `v = (v + 0.5) * π/h - π/2`,
  stacked along the last axis, so cell `(i, j)` holds the pair `(u j, v i)`.
* `uv2img_idx uv h w u_fov v_fov` — the gnomonic projector: asserts
  `0 < u_fov < π` and `0 < v_fov < π`, computes `x = tan u`,
  `y = tan v / cos u`, rescales with the field of view, overwrites cells
  outside the frustum with the sentinel `-100`, and stacks `[y, x]` along
  axis 0 (row coordinate first, shape `(2, H, W)`).
* `map_coordinates img h w c` — `scipy.ndimage.interpolation.map_coordinates`
  with `order=1` and the default `mode='constant', cval=0`: coordinates
  strictly outside `[0, h-1] × [0, w-1]` yield the fill value `0`; inside,
  the value is the bilinear blend of the four integer-grid neighbours.
* `getitem_core` — the per-item pipeline of `OmniDataset.__getitem__` up to
  the resampled output: generate the grid, convert the field of view from
  degrees to radians, project, then resample.

Arrays are embedded as functions from indices; a `List`-of-rows view
(`genuvArr`) is kept alongside to reason about cell counts and shapes.
Machine floats are modelled by the real numbers, Python `assert` failures by
`Option.none`.
-/

open scoped Classical

namespace SphereNet

/-- The spherical grid of `genuv`: cell `(i, j)` (row `i`, column `j`) holds
the pair `(u, v)` with longitude `u = (j + 0.5) * 2π/w - π` and latitude
`v = (i + 0.5) * π/h - π/2`, exactly as in the source (`np.meshgrid` makes
the first component depend on the column index and the second on the row
index; `np.stack(..., axis=-1)` pairs them `(u, v)`). -/
noncomputable def genuv (h w : ℕ) (i j : ℕ) : ℝ × ℝ :=
  let u : ℝ := ((j : ℝ) + 0.5) * 2 * Real.pi / (w : ℝ) - Real.pi
  let v : ℝ := ((i : ℝ) + 0.5) * Real.pi / (h : ℝ) - Real.pi / 2
  (u, v)

/-- The `(h, w, 2)`-shaped array view of `genuv`, as a list of `h` rows of
`w` cells each. -/
noncomputable def genuvArr (h w : ℕ) : List (List (ℝ × ℝ)) :=
  (List.range h).map fun i => (List.range w).map fun j => genuv h w i j

/-- The frustum test of `uv2img_idx`:
`invalid = (uv[...,0] < -u_fov/2) | (uv[...,0] > u_fov/2) |
           (uv[...,1] < -v_fov/2) | (uv[...,1] > v_fov/2)`. -/
def invalidCell (u v u_fov v_fov : ℝ) : Prop :=
  u < -u_fov / 2 ∨ u > u_fov / 2 ∨ v < -v_fov / 2 ∨ v > v_fov / 2

/-- The body of `uv2img_idx` at a single grid cell `(u, v)`: the projected
coordinates `x = tan(u) * w / (2 tan(u_fov/2)) + w/2` and
`y = (tan(v)/cos(u)) * h / (2 tan(v_fov/2)) + h/2`, both overwritten with the
sentinel `-100` when the cell fails the frustum test; the result is the pair
`(y, x)`, row coordinate first, mirroring `np.stack([y, x], axis=0)`. -/
noncomputable def img_idx_cell (u v : ℝ) (h w : ℕ) (u_fov v_fov : ℝ) : ℝ × ℝ :=
  let x := Real.tan u
  let y := Real.tan v / Real.cos u
  let x := x * (w : ℝ) / (2 * Real.tan (u_fov / 2)) + (w : ℝ) / 2
  let y := y * (h : ℝ) / (2 * Real.tan (v_fov / 2)) + (h : ℝ) / 2
  let x := if invalidCell u v u_fov v_fov then -100 else x
  let y := if invalidCell u v u_fov v_fov then -100 else y
  (y, x)

/-- `uv2img_idx uv h w u_fov v_fov`: the two `assert` statements reject any
field of view outside the open interval `(0, π)` (modelled by `none`);
otherwise the result is the `(2, H, W)` projection-index array, plane `0`
holding the row coordinate `y` and plane `1` the column coordinate `x`. -/
noncomputable def uv2img_idx (uv : ℕ → ℕ → ℝ × ℝ) (h w : ℕ) (u_fov v_fov : ℝ) :
    Option (Fin 2 → ℕ → ℕ → ℝ) :=
  if 0 < u_fov ∧ u_fov < Real.pi ∧ 0 < v_fov ∧ v_fov < Real.pi then
    some fun k i j =>
      let yx := img_idx_cell (uv i j).1 (uv i j).2 h w u_fov v_fov
      if k = 0 then yx.1 else yx.2
  else none

/-- `scipy.ndimage.interpolation.map_coordinates(img, c, order=1)` with the
default `mode='constant'` and `cval=0`, at one coordinate pair
`c = (row, column)` for an `h × w` image: a coordinate with any component
strictly outside `[0, h-1] × [0, w-1]` is filled with `0` (no out-of-bounds
read); otherwise the value is the bilinear blend of the four integer-grid
neighbours of the fractional coordinate, weighted by fractional distance. -/
noncomputable def map_coordinates (img : ℤ → ℤ → ℝ) (h w : ℕ) (c : ℝ × ℝ) : ℝ :=
  if c.1 < 0 ∨ (h : ℝ) - 1 < c.1 ∨ c.2 < 0 ∨ (w : ℝ) - 1 < c.2 then 0
  else
    let y0 := ⌊c.1⌋
    let x0 := ⌊c.2⌋
    let fy := c.1 - (y0 : ℝ)
    let fx := c.2 - (x0 : ℝ)
    (1 - fy) * (1 - fx) * img y0 x0 + (1 - fy) * fx * img y0 (x0 + 1) +
      fy * (1 - fx) * img (y0 + 1) x0 + fy * fx * img (y0 + 1) (x0 + 1)

/-- The resampling core of `OmniDataset.__getitem__` (before the excluded
flip / rotate / normalize augmentations): generate the spherical grid for the
output shape `(Hout, Wout)`, convert the field of view from degrees to
radians (`fov = self.fov * np.pi / 180`), project with equal horizontal and
vertical field of view, and resample the `h × w` source image at the
projection index with order-1 interpolation. `none` models the projector's
assertion failure. -/
noncomputable def getitem_core (img : ℤ → ℤ → ℝ) (h w Hout Wout : ℕ)
    (fov_deg : ℝ) : Option (ℕ → ℕ → ℝ) :=
  let uv := genuv Hout Wout
  let fov := fov_deg * Real.pi / 180
  (uv2img_idx uv h w fov fov).map fun idx => fun i j =>
    map_coordinates img h w (idx 0 i j, idx 1 i j)

/-- C3: For every positive `H` and `W`, the grid generator produces an
`(H, W, 2)` array whose cell at row `i`, column `j` holds the pair `(u, v)`
with longitude `u = (j + 0.5) * 2π/W - π` and latitude
`v = (i + 0.5) * π/H - π/2`, with the pairing order `(u, v)` per pixel. -/
theorem C3_grid_formula (H W : ℕ) (hH : 0 < H) (hW : 0 < W)
    (i j : ℕ) (hi : i < H) (hj : j < W) :
    (genuvArr H W).length = H ∧
    (∀ row ∈ genuvArr H W, row.length = W) ∧
    ((genuvArr H W)[i]?.bind fun row => row[j]?) =
      some (((j : ℝ) + 0.5) * 2 * Real.pi / (W : ℝ) - Real.pi,
            ((i : ℝ) + 0.5) * Real.pi / (H : ℝ) - Real.pi / 2) := by
  refine ⟨by simp [genuvArr], by simp [genuvArr], ?_⟩
  simp [genuvArr, genuv, List.getElem?_map, List.getElem?_range, hi, hj]

/-- Witness for C3 at `H = W = 2`, cell `(0, 1)`. -/
theorem C3_grid_formula_witness :
    (genuvArr 2 2).length = 2 ∧
    (∀ row ∈ genuvArr 2 2, row.length = 2) ∧
    ((genuvArr 2 2)[0]?.bind fun row => row[1]?) =
      some ((((1 : ℕ) : ℝ) + 0.5) * 2 * Real.pi / ((2 : ℕ) : ℝ) - Real.pi,
            (((0 : ℕ) : ℝ) + 0.5) * Real.pi / ((2 : ℕ) : ℝ) - Real.pi / 2) :=
  C3_grid_formula 2 2 (by norm_num) (by norm_num) 0 1 (by norm_num) (by norm_num)

/-- C7: For every field of view `f ∈ (0, π)`, a grid cell with direction
`u = v = 0` is never marked invalid, and its projected coordinate is exactly
`(pixel_y, pixel_x) = (h/2, w/2)` for every source image size `(h, w)`. -/
theorem C7_center_valid (h w : ℕ) (f : ℝ) (hf0 : 0 < f) (hfpi : f < Real.pi) :
    ¬ invalidCell 0 0 f f ∧
    img_idx_cell 0 0 h w f f = ((h : ℝ) / 2, (w : ℝ) / 2) := by
  have hval : ¬ invalidCell 0 0 f f := by
    rintro (h1 | h1 | h1 | h1) <;> linarith
  refine ⟨hval, ?_⟩
  simp [img_idx_cell, hval, Real.tan_zero, Real.cos_zero]

/-- Witness for C7 at `f = π/2`, `h = w = 10`. -/
theorem C7_center_valid_witness :
    ¬ invalidCell 0 0 (Real.pi / 2) (Real.pi / 2) ∧
    img_idx_cell 0 0 10 10 (Real.pi / 2) (Real.pi / 2) =
      (((10 : ℕ) : ℝ) / 2, ((10 : ℕ) : ℝ) / 2) :=
  C7_center_valid 10 10 (Real.pi / 2) (by positivity)
    (by linarith [Real.pi_pos])

/-- C8: For every equal field of view `u_fov = v_fov = f ∈ (0, π)`, the set
of directions `(u, v)` the projector leaves valid is closed under negating
both components: `(u, v)` is valid iff `(-u, -v)` is valid. -/
theorem C8_valid_symmetric (f : ℝ) (hf0 : 0 < f) (hfpi : f < Real.pi)
    (u v : ℝ) :
    ¬ invalidCell u v f f ↔ ¬ invalidCell (-u) (-v) f f := by
  apply not_congr
  unfold invalidCell
  constructor
  · rintro (h1 | h1 | h1 | h1)
    · exact Or.inr (Or.inl (by linarith))
    · exact Or.inl (by linarith)
    · exact Or.inr (Or.inr (Or.inr (by linarith)))
    · exact Or.inr (Or.inr (Or.inl (by linarith)))
  · rintro (h1 | h1 | h1 | h1)
    · exact Or.inr (Or.inl (by linarith))
    · exact Or.inl (by linarith)
    · exact Or.inr (Or.inr (Or.inr (by linarith)))
    · exact Or.inr (Or.inr (Or.inl (by linarith)))

/-- Witness for C8 at `f = π/2`, `(u, v) = (1, 0)`. -/
theorem C8_valid_symmetric_witness :
    ¬ invalidCell 1 0 (Real.pi / 2) (Real.pi / 2) ↔
    ¬ invalidCell (-1) (-0) (Real.pi / 2) (Real.pi / 2) :=
  C8_valid_symmetric (Real.pi / 2) (by positivity)
    (by linarith [Real.pi_pos]) 1 0

/-- C1: For every spherical grid cell `(u, v)`, source size `(h, w)` and
field of view with `0 < u_fov < π` and `0 < v_fov < π`, the projector
computes the source coordinate of a valid cell as
`pixel_x = tan(u) * w / (2 tan(u_fov/2)) + w/2` and
`pixel_y = (tan(v)/cos(u)) * h / (2 tan(v_fov/2)) + h/2`, and returns the
result as a `(2, H, W)` array with the row coordinate (`pixel_y`) in
plane `0`. -/
theorem C1_projection_formula (uv : ℕ → ℕ → ℝ × ℝ) (h w : ℕ)
    (u_fov v_fov : ℝ) (hu0 : 0 < u_fov) (hupi : u_fov < Real.pi)
    (hv0 : 0 < v_fov) (hvpi : v_fov < Real.pi) (i j : ℕ)
    (hval : ¬ invalidCell (uv i j).1 (uv i j).2 u_fov v_fov) :
    ∃ idx : Fin 2 → ℕ → ℕ → ℝ,
      uv2img_idx uv h w u_fov v_fov = some idx ∧
      idx 0 i j = Real.tan (uv i j).2 / Real.cos (uv i j).1 * (h : ℝ) /
          (2 * Real.tan (v_fov / 2)) + (h : ℝ) / 2 ∧
      idx 1 i j = Real.tan (uv i j).1 * (w : ℝ) /
          (2 * Real.tan (u_fov / 2)) + (w : ℝ) / 2 := by
  rw [uv2img_idx, if_pos ⟨hu0, hupi, hv0, hvpi⟩]
  refine ⟨_, rfl, ?_, ?_⟩ <;> simp [img_idx_cell, hval]

/-- Witness for C1 at the all-zero grid, `h = w = 2`, `u_fov = v_fov = π/2`,
cell `(0, 0)`. -/
theorem C1_projection_formula_witness :
    ∃ idx : Fin 2 → ℕ → ℕ → ℝ,
      uv2img_idx (fun _ _ => ((0 : ℝ), (0 : ℝ))) 2 2 (Real.pi / 2)
        (Real.pi / 2) = some idx ∧
      idx 0 0 0 = Real.tan 0 / Real.cos 0 * ((2 : ℕ) : ℝ) /
          (2 * Real.tan (Real.pi / 2 / 2)) + ((2 : ℕ) : ℝ) / 2 ∧
      idx 1 0 0 = Real.tan 0 * ((2 : ℕ) : ℝ) /
          (2 * Real.tan (Real.pi / 2 / 2)) + ((2 : ℕ) : ℝ) / 2 :=
  C1_projection_formula (fun _ _ => ((0 : ℝ), (0 : ℝ))) 2 2
    (Real.pi / 2) (Real.pi / 2) (by positivity) (by linarith [Real.pi_pos])
    (by positivity) (by linarith [Real.pi_pos]) 0 0
    (by rintro (h1 | h1 | h1 | h1) <;> nlinarith [Real.pi_pos])

/-- C2: For every grid cell `(u, v)` and in-range field of view, the
projector marks the cell invalid exactly when `u < -u_fov/2` or
`u > u_fov/2` or `v < -v_fov/2` or `v > v_fov/2`, assigns both coordinates
of every invalid cell the sentinel `-100`, and the sentinel never samples
inside the source image: resampling any image at it yields the fill value
`0` (no wrapping or clamping). -/
theorem C2_invalid_mask (uv : ℕ → ℕ → ℝ × ℝ) (h w : ℕ)
    (u_fov v_fov : ℝ) (hu0 : 0 < u_fov) (hupi : u_fov < Real.pi)
    (hv0 : 0 < v_fov) (hvpi : v_fov < Real.pi) (i j : ℕ) :
    ∃ idx : Fin 2 → ℕ → ℕ → ℝ,
      uv2img_idx uv h w u_fov v_fov = some idx ∧
      (invalidCell (uv i j).1 (uv i j).2 u_fov v_fov ↔
        ((uv i j).1 < -u_fov / 2 ∨ (uv i j).1 > u_fov / 2 ∨
         (uv i j).2 < -v_fov / 2 ∨ (uv i j).2 > v_fov / 2)) ∧
      (invalidCell (uv i j).1 (uv i j).2 u_fov v_fov →
        idx 0 i j = -100 ∧ idx 1 i j = -100 ∧
        ∀ img : ℤ → ℤ → ℝ,
          map_coordinates img h w (idx 0 i j, idx 1 i j) = 0) := by
  rw [uv2img_idx, if_pos ⟨hu0, hupi, hv0, hvpi⟩]
  refine ⟨_, rfl, Iff.rfl, fun hinv => ?_⟩
  have h0 : (fun k i j =>
      let yx := img_idx_cell (uv i j).1 (uv i j).2 h w u_fov v_fov
      if k = 0 then yx.1 else yx.2 : Fin 2 → ℕ → ℕ → ℝ) 0 i j = -100 := by
    simp [img_idx_cell, hinv]
  have h1 : (fun k i j =>
      let yx := img_idx_cell (uv i j).1 (uv i j).2 h w u_fov v_fov
      if k = 0 then yx.1 else yx.2 : Fin 2 → ℕ → ℕ → ℝ) 1 i j = -100 := by
    simp [img_idx_cell, hinv]
  refine ⟨h0, h1, fun img => ?_⟩
  have hmc : map_coordinates img h w (-100, -100) = 0 := by
    rw [map_coordinates, if_pos (by norm_num)]
  simpa [img_idx_cell, hinv] using hmc

/-- Witness for C2 at the constant grid `(π/2, 0)` (an invalid direction for
`u_fov = π/2`), `h = w = 5`. -/
theorem C2_invalid_mask_witness :
    ∃ idx : Fin 2 → ℕ → ℕ → ℝ,
      uv2img_idx (fun _ _ => (Real.pi / 2, (0 : ℝ))) 5 5 (Real.pi / 2)
        (Real.pi / 2) = some idx ∧
      (invalidCell (Real.pi / 2) 0 (Real.pi / 2) (Real.pi / 2) ↔
        (Real.pi / 2 < -(Real.pi / 2) / 2 ∨ Real.pi / 2 > Real.pi / 2 / 2 ∨
         (0 : ℝ) < -(Real.pi / 2) / 2 ∨ (0 : ℝ) > Real.pi / 2 / 2)) ∧
      (invalidCell (Real.pi / 2) 0 (Real.pi / 2) (Real.pi / 2) →
        idx 0 0 0 = -100 ∧ idx 1 0 0 = -100 ∧
        ∀ img : ℤ → ℤ → ℝ,
          map_coordinates img 5 5 (idx 0 0 0, idx 1 0 0) = 0) :=
  C2_invalid_mask (fun _ _ => (Real.pi / 2, (0 : ℝ))) 5 5 (Real.pi / 2)
    (Real.pi / 2) (by positivity) (by linarith [Real.pi_pos])
    (by positivity) (by linarith [Real.pi_pos]) 0 0

/-- C10: For every field of view with `u_fov < π`, every grid cell whose
longitude satisfies `|u| ≥ π/2` — where `cos(u) ≤ 0` and the projection
formulas are degenerate — is necessarily caught by the frustum test, so both
planes of the returned projection index hold the sentinel `-100` at that
cell. -/
theorem C10_degenerate_masked (uv : ℕ → ℕ → ℝ × ℝ) (h w : ℕ)
    (u_fov v_fov : ℝ) (hu0 : 0 < u_fov) (hupi : u_fov < Real.pi)
    (hv0 : 0 < v_fov) (hvpi : v_fov < Real.pi) (i j : ℕ)
    (hu : Real.pi / 2 ≤ |(uv i j).1|) :
    ∃ idx : Fin 2 → ℕ → ℕ → ℝ,
      uv2img_idx uv h w u_fov v_fov = some idx ∧
      idx 0 i j = -100 ∧ idx 1 i j = -100 := by
  have hinv : invalidCell (uv i j).1 (uv i j).2 u_fov v_fov := by
    rcases le_abs.mp hu with h1 | h1
    · exact Or.inr (Or.inl (by linarith))
    · exact Or.inl (by linarith)
  rw [uv2img_idx, if_pos ⟨hu0, hupi, hv0, hvpi⟩]
  refine ⟨_, rfl, ?_, ?_⟩ <;> simp [img_idx_cell, hinv]

/-- Witness for C10 at the constant grid `(π/2, 0)` with
`u_fov = v_fov = π/2`, `h = w = 8`. -/
theorem C10_degenerate_masked_witness :
    ∃ idx : Fin 2 → ℕ → ℕ → ℝ,
      uv2img_idx (fun _ _ => (Real.pi / 2, (0 : ℝ))) 8 8 (Real.pi / 2)
        (Real.pi / 2) = some idx ∧
      idx 0 0 0 = -100 ∧ idx 1 0 0 = -100 :=
  C10_degenerate_masked (fun _ _ => (Real.pi / 2, (0 : ℝ))) 8 8
    (Real.pi / 2) (Real.pi / 2) (by positivity) (by linarith [Real.pi_pos])
    (by positivity) (by linarith [Real.pi_pos]) 0 0
    (by rw [abs_of_pos (by positivity)])

/-- C4 counterexample: the claim also asserts failure whenever the requested
output height or width is non-positive, but the code has no such check: with
output height `0` (and a valid field of view of 90°) the pipeline succeeds
and produces an output, rather than failing. -/
theorem C4_counterexample :
    ∃ out : ℕ → ℕ → ℝ,
      getitem_core (fun _ _ => 0) 10 10 0 4 90 = some out := by
  rw [getitem_core, uv2img_idx, if_pos]
  · exact ⟨_, rfl⟩
  · have hpi := Real.pi_pos
    refine ⟨by positivity, by nlinarith, by positivity, by nlinarith⟩

/-- C4 (amended): the projector fails immediately, producing no output,
exactly when `u_fov` or `v_fov` is not strictly within `(0, π)` (in
particular for a field of view of `0`, `π`, or `3.5`); a non-positive
requested output height or width is not rejected. -/
theorem C4_fov_validation (uv : ℕ → ℕ → ℝ × ℝ) (h w : ℕ)
    (u_fov v_fov : ℝ) :
    uv2img_idx uv h w u_fov v_fov = none ↔
      ¬ (0 < u_fov ∧ u_fov < Real.pi ∧ 0 < v_fov ∧ v_fov < Real.pi) := by
  by_cases hc : 0 < u_fov ∧ u_fov < Real.pi ∧ 0 < v_fov ∧ v_fov < Real.pi
  · simp [uv2img_idx, if_pos hc, hc]
  · simp [uv2img_idx, if_neg hc, hc]

/-- C9: For every constant-valued source image and any constant `c`,
bilinear (order-1) resampling at any coordinate within the valid sampling
range `[0, h-1] × [0, w-1]` yields exactly `c`. -/
theorem C9_constant_interpolation (c : ℝ) (h w : ℕ) (y x : ℝ)
    (hy0 : 0 ≤ y) (hy1 : y ≤ (h : ℝ) - 1) (hx0 : 0 ≤ x)
    (hx1 : x ≤ (w : ℝ) - 1) :
    map_coordinates (fun _ _ => c) h w (y, x) = c := by
  have hc : ¬(y < 0 ∨ (h : ℝ) - 1 < y ∨ x < 0 ∨ (w : ℝ) - 1 < x) := by
    push_neg
    exact ⟨hy0, hy1, hx0, hx1⟩
  rw [map_coordinates]
  dsimp only
  rw [if_neg hc]
  ring

/-- Witness for C9: a constant-5 image of size `10 × 10` sampled at
`(1.5, 1.5)`. -/
theorem C9_constant_interpolation_witness :
    (0 : ℝ) ≤ 1.5 ∧ (1.5 : ℝ) ≤ ((10 : ℕ) : ℝ) - 1 ∧
    map_coordinates (fun _ _ => (5 : ℝ)) 10 10 (1.5, 1.5) = 5 :=
  ⟨by norm_num, by norm_num,
    C9_constant_interpolation 5 10 10 1.5 1.5 (by norm_num) (by norm_num)
      (by norm_num) (by norm_num)⟩

/-- C5: During resampling, every coordinate (the sentinel pair
`(-100, -100)` included) outside the rectangle `[0, h-1] × [0, w-1]`
contributes no out-of-bounds read and resolves to the fill value `0`; in
particular every output pixel of the pipeline whose grid cell is invalid
equals `0` in the output image, for every source image. -/
theorem C5_out_of_range_zero :
    (∀ (img : ℤ → ℤ → ℝ) (h w : ℕ) (y x : ℝ),
        (y < 0 ∨ (h : ℝ) - 1 < y ∨ x < 0 ∨ (w : ℝ) - 1 < x) →
        map_coordinates img h w (y, x) = 0) ∧
    (∀ (img : ℤ → ℤ → ℝ) (h w Hout Wout : ℕ) (fov_deg : ℝ),
        0 < fov_deg → fov_deg < 180 →
        ∀ i j : ℕ,
          invalidCell (genuv Hout Wout i j).1 (genuv Hout Wout i j).2
            (fov_deg * Real.pi / 180) (fov_deg * Real.pi / 180) →
          ∃ out : ℕ → ℕ → ℝ,
            getitem_core img h w Hout Wout fov_deg = some out ∧
            out i j = 0) := by
  have hfill : ∀ (img : ℤ → ℤ → ℝ) (h w : ℕ) (y x : ℝ),
      (y < 0 ∨ (h : ℝ) - 1 < y ∨ x < 0 ∨ (w : ℝ) - 1 < x) →
      map_coordinates img h w (y, x) = 0 := by
    intro img h w y x hc
    rw [map_coordinates]
    dsimp only
    rw [if_pos hc]
  refine ⟨hfill, ?_⟩
  intro img h w Hout Wout fov_deg h0 h180 i j hinv
  have hpi := Real.pi_pos
  have hfov0 : 0 < fov_deg * Real.pi / 180 :=
    div_pos (mul_pos h0 hpi) (by norm_num)
  have hfovpi : fov_deg * Real.pi / 180 < Real.pi := by
    rw [div_lt_iff (by norm_num : (0 : ℝ) < 180)]
    nlinarith
  simp only [getitem_core]
  rw [uv2img_idx, if_pos ⟨hfov0, hfovpi, hfov0, hfovpi⟩]
  refine ⟨_, rfl, ?_⟩
  have hmc : map_coordinates img h w (-100, -100) = 0 :=
    hfill img h w (-100) (-100) (Or.inl (by norm_num))
  simpa [img_idx_cell, hinv] using hmc

/-- Witness for C5: the sentinel resolves to `0` on a constant-7 `5 × 5`
image, and the pipeline output at the invalid cell `(0, 0)` of a `2 × 2`
output grid with a 90° field of view is `0`. -/
theorem C5_out_of_range_zero_witness :
    map_coordinates (fun _ _ => (7 : ℝ)) 5 5 (-100, -100) = 0 ∧
    (∃ out : ℕ → ℕ → ℝ,
      getitem_core (fun _ _ => (7 : ℝ)) 5 5 2 2 90 = some out ∧
      out 0 0 = 0) :=
  ⟨C5_out_of_range_zero.1 _ 5 5 (-100) (-100) (Or.inl (by norm_num)),
   C5_out_of_range_zero.2 _ 5 5 2 2 90 (by norm_num) (by norm_num) 0 0
     (by
       have hu : (genuv 2 2 0 0).1 < -(90 * Real.pi / 180) / 2 := by
         simp [genuv]
         linarith [Real.pi_pos]
       exact Or.inl hu)⟩

/-- C6: For every `H, W ≥ 1`, the generated grid has exactly `H * W` cells;
all longitude values lie strictly within `(-π, π]` and increase
monotonically along the column axis, and all latitude values lie strictly
within `(-π/2, π/2]` and increase monotonically along the row axis. -/
theorem C6_grid_range_mono (H W : ℕ) (hH : 1 ≤ H) (hW : 1 ≤ W) :
    ((genuvArr H W).map List.length).sum = H * W ∧
    (∀ i j, i < H → j < W →
      -Real.pi < (genuv H W i j).1 ∧ (genuv H W i j).1 ≤ Real.pi) ∧
    (∀ i j j', j < j' → j' < W →
      (genuv H W i j).1 < (genuv H W i j').1) ∧
    (∀ i j, i < H → j < W →
      -(Real.pi / 2) < (genuv H W i j).2 ∧ (genuv H W i j).2 ≤ Real.pi / 2) ∧
    (∀ i i' j, i < i' → i' < H →
      (genuv H W i j).2 < (genuv H W i' j).2) := by
  have hWr : (0 : ℝ) < (W : ℝ) := by exact_mod_cast hW
  have hHr : (0 : ℝ) < (H : ℝ) := by exact_mod_cast hH
  have hpi := Real.pi_pos
  refine ⟨?_, ?_, ?_, ?_, ?_⟩
  · have hlen : (genuvArr H W).map List.length = List.replicate H W := by
      simp [genuvArr, List.map_map, Function.comp_def]
    rw [hlen, List.sum_replicate, smul_eq_mul]
  · intro i j hi hj
    have hjr : (j : ℝ) ≤ (W : ℝ) - 1 := by
      have : (j : ℝ) + 1 ≤ (W : ℝ) := by exact_mod_cast hj
      linarith
    constructor
    · have h1 : 0 < ((j : ℝ) + 0.5) * 2 * Real.pi / (W : ℝ) :=
        div_pos (by positivity) hWr
      show -Real.pi < ((j : ℝ) + 0.5) * 2 * Real.pi / (W : ℝ) - Real.pi
      linarith
    · have h1 : ((j : ℝ) + 0.5) * 2 * Real.pi / (W : ℝ) ≤ 2 * Real.pi := by
        rw [div_le_iff hWr]
        nlinarith
      show ((j : ℝ) + 0.5) * 2 * Real.pi / (W : ℝ) - Real.pi ≤ Real.pi
      linarith
  · intro i j j' hjj' hj'
    have hab : (j : ℝ) + 0.5 < (j' : ℝ) + 0.5 := by
      have : (j : ℝ) < (j' : ℝ) := by exact_mod_cast hjj'
      linarith
    have hd : 0 < (((j' : ℝ) + 0.5) - ((j : ℝ) + 0.5)) * 2 * Real.pi / (W : ℝ) :=
      div_pos (by nlinarith) hWr
    have he : (((j' : ℝ) + 0.5) - ((j : ℝ) + 0.5)) * 2 * Real.pi / (W : ℝ) =
        ((j' : ℝ) + 0.5) * 2 * Real.pi / (W : ℝ) -
          ((j : ℝ) + 0.5) * 2 * Real.pi / (W : ℝ) := by ring
    rw [he] at hd
    show ((j : ℝ) + 0.5) * 2 * Real.pi / (W : ℝ) - Real.pi <
      ((j' : ℝ) + 0.5) * 2 * Real.pi / (W : ℝ) - Real.pi
    linarith
  · intro i j hi hj
    have hir : (i : ℝ) ≤ (H : ℝ) - 1 := by
      have : (i : ℝ) + 1 ≤ (H : ℝ) := by exact_mod_cast hi
      linarith
    constructor
    · have h1 : 0 < ((i : ℝ) + 0.5) * Real.pi / (H : ℝ) :=
        div_pos (by positivity) hHr
      show -(Real.pi / 2) < ((i : ℝ) + 0.5) * Real.pi / (H : ℝ) - Real.pi / 2
      linarith
    · have h1 : ((i : ℝ) + 0.5) * Real.pi / (H : ℝ) ≤ Real.pi := by
        rw [div_le_iff hHr]
        nlinarith
      show ((i : ℝ) + 0.5) * Real.pi / (H : ℝ) - Real.pi / 2 ≤ Real.pi / 2
      linarith
  · intro i i' j hii' hi'
    have hab : (i : ℝ) + 0.5 < (i' : ℝ) + 0.5 := by
      have : (i : ℝ) < (i' : ℝ) := by exact_mod_cast hii'
      linarith
    have hd : 0 < (((i' : ℝ) + 0.5) - ((i : ℝ) + 0.5)) * Real.pi / (H : ℝ) :=
      div_pos (by nlinarith) hHr
    have he : (((i' : ℝ) + 0.5) - ((i : ℝ) + 0.5)) * Real.pi / (H : ℝ) =
        ((i' : ℝ) + 0.5) * Real.pi / (H : ℝ) -
          ((i : ℝ) + 0.5) * Real.pi / (H : ℝ) := by ring
    rw [he] at hd
    show ((i : ℝ) + 0.5) * Real.pi / (H : ℝ) - Real.pi / 2 <
      ((i' : ℝ) + 0.5) * Real.pi / (H : ℝ) - Real.pi / 2
    linarith

/-- Witness for C6 at `H = W = 2`. -/
theorem C6_grid_range_mono_witness :
    ((genuvArr 2 2).map List.length).sum = 2 * 2 ∧
    (∀ i j, i < 2 → j < 2 →
      -Real.pi < (genuv 2 2 i j).1 ∧ (genuv 2 2 i j).1 ≤ Real.pi) ∧
    (∀ i j j', j < j' → j' < 2 →
      (genuv 2 2 i j).1 < (genuv 2 2 i j').1) ∧
    (∀ i j, i < 2 → j < 2 →
      -(Real.pi / 2) < (genuv 2 2 i j).2 ∧ (genuv 2 2 i j).2 ≤ Real.pi / 2) ∧
    (∀ i i' j, i < i' → i' < 2 →
      (genuv 2 2 i j).2 < (genuv 2 2 i' j).2) :=
  C6_grid_range_mono 2 2 (by norm_num) (by norm_num)

end SphereNet
